import Mathlib

/-!
Verification of the Bachelor Bingo multiplayer server (src/server.js).

The server keeps an in-memory registry of rooms, each holding an ordered
list of players.  The development below is a shallow embedding of the
server code: pure helpers (card generator, win evaluator) become Lean
functions on lists, the socket handlers become functions from a
`ServerState` to a new `ServerState` paired with the list of emitted
events, and the JavaScript array/Map operations are modelled by explicit
list functions with the same observable behaviour (in particular,
writing past the end of a JS array grows it, and `Map.set` replaces the
entry in place).
-/

/-- Reading `a[i]` from a JS array of booleans: out-of-range reads give
`undefined`, which is falsy everywhere the server consumes it. -/
def jsGet (l : List Bool) (i : Nat) : Bool :=
  l.getD i false

/-- Writing `a[i] = v` to a JS array of booleans: in range it updates the
cell, past the end it grows the array (the new cells before `i` read as
falsy `undefined`, modelled as `false`). -/
def jsSet (l : List Bool) (i : Nat) (v : Bool) : List Bool :=
  if i < l.length then l.set i v
  else l ++ List.replicate (i - l.length) false ++ [v]

/-- The cliché phrase pool of src/server.js (`CLICHES`). -/
def CLICHES : List String :=
  ["Here for the right reasons",
   "Can I steal you?",
   "Most dramatic season",
   "Journey",
   "Process",
   "Helicopter date",
   "Hot tub scene",
   "Someone cries",
   "Champagne toast",
   "Rose ceremony drama",
   "Awkward silence",
   "Group date drama",
   "I\x27m falling for you",
   "Fantasy suite card",
   "Hometown visit",
   "Meeting the parents",
   "Interrupted conversation",
   "Close-up of a rose",
   "Dramatic music swell",
   "Sunset walk on beach",
   "Will you accept this rose?",
   "Final rose tonight",
   "Connection",
   "Vulnerable moment",
   "Open up emotionally",
   "Trust the process",
   "Love triangle",
   "Cocktail party drama",
   "Tears during ITM",
   "Not here to make friends",
   "Leap of faith",
   "Take a chance on love",
   "Follow my heart",
   "Wife material",
   "Meet my family"]

/-- `card.splice(i, 0, a)`: insert `a` at index `i`, shifting later entries. -/
def spliceInsert (l : List α) (i : Nat) (a : α) : List α :=
  l.take i ++ a :: l.drop i

/-- `generateBingoCard` of src/server.js.  The JS code shuffles `CLICHES`
with `sort(() => Math.random() - 0.5)`; the shuffle result is modelled as
an explicit argument `shuffled` (an arbitrary permutation of the pool).
It then takes the first 24 entries and splices `"FREE SPACE"` in at
index 12. -/
def generateBingoCard (shuffled : List String) : List String :=
  spliceInsert (shuffled.take 24) 12 "FREE SPACE"

/-- `checkWin` of src/server.js: regular-mode evaluation of a mark
vector.  Rows are `i*5+j`, columns are `i+j*5`, the diagonals are the
literal index lists of the source. -/
def checkWin (m : List Bool) : Bool :=
  ((List.range 5).any fun i => (List.range 5).all fun j => jsGet m (i * 5 + j)) ||
  ((List.range 5).any fun i => (List.range 5).all fun j => jsGet m (i + j * 5)) ||
  ([0, 6, 12, 18, 24].all fun k => jsGet m k) ||
  ([4, 8, 12, 16, 20].all fun k => jsGet m k)

/-- The inline blackout check of the mark-square handler:
`player.markedSquares.every(m => m)`. -/
def blackoutWin (m : List Bool) : Bool :=
  m.all fun x => x

/-- Modelled from the spec: regular-mode victory as §4.2 words it — some
row, column, or one of the two diagonals `[0,6,12,18,24]`,
`[4,8,12,16,20]` is fully marked (row-major 5×5 flattening). -/
def winSpecRegular (m : List Bool) : Prop :=
  (∃ i, i < 5 ∧ ∀ j, j < 5 → jsGet m (i * 5 + j) = true) ∨
  (∃ i, i < 5 ∧ ∀ j, j < 5 → jsGet m (i + j * 5) = true) ∨
  (∀ k ∈ ([0, 6, 12, 18, 24] : List Nat), jsGet m k = true) ∨
  (∀ k ∈ ([4, 8, 12, 16, 20] : List Nat), jsGet m k = true)

/-- Modelled from the spec: blackout victory — all 25 entries true. -/
def winSpecBlackout (m : List Bool) : Prop :=
  ∀ k, k < 25 → jsGet m k = true

-- ---------------------------------------------------------------------
-- Small list lemmas about the JS array model
-- ---------------------------------------------------------------------

theorem jsGet_mem (l : List Bool) (i : Nat) (h : i < l.length) :
    jsGet l i ∈ l := by
  induction l generalizing i with
  | nil => simp at h
  | cons x xs ih =>
    cases i with
    | zero => simp [jsGet, List.getD]
    | succ n =>
      have : jsGet (x :: xs) (n + 1) = jsGet xs n := rfl
      rw [this]
      exact List.mem_cons_of_mem _ (ih n (by simpa using h))

theorem jsGet_eq_get (l : List Bool) (i : Nat) (h : i < l.length) :
    jsGet l i = l.get ⟨i, h⟩ := by
  induction l generalizing i with
  | nil => simp at h
  | cons x xs ih =>
    cases i with
    | zero => rfl
    | succ n => exact ih n (by simpa using h)

theorem jsSet_length (l : List Bool) (i : Nat) (v : Bool) (h : i < l.length) :
    (jsSet l i v).length = l.length := by
  simp [jsSet, h]

-- ---------------------------------------------------------------------
-- C1: the win evaluator is correct
-- ---------------------------------------------------------------------

/-- C1: for every 25-entry boolean mark vector, the blackout check
(`every`) returns true iff all 25 entries are true, and `checkWin`
returns true iff some row, some column, or one of the two diagonals
`[0,6,12,18,24]`, `[4,8,12,16,20]` is fully marked. -/
theorem checkWin_correct (m : List Bool) (h : m.length = 25) :
    (blackoutWin m = true ↔ winSpecBlackout m) ∧
    (checkWin m = true ↔ winSpecRegular m) := by
  constructor
  · constructor
    · intro hall k hk
      have hk25 : k < m.length := by omega
      have := List.all_eq_true.mp hall _ (jsGet_mem m k hk25)
      simpa [blackoutWin] using this
    · intro hspec
      apply List.all_eq_true.mpr
      intro x hx
      rcases List.mem_iff_get.mp hx with ⟨⟨i, hi⟩, rfl⟩
      have hi25 : i < 25 := by omega
      have := hspec i hi25
      rw [jsGet_eq_get m i hi] at this
      simpa using this
  · simp only [checkWin, winSpecRegular, jsGet, Bool.or_eq_true, List.any_eq_true,
      List.all_eq_true, List.mem_range, or_assoc]

/-- Witness for C1 at a concrete vector: the initial mark vector (only
the FREE SPACE cell marked) wins in neither mode. -/
theorem checkWin_correct_witness :
    ((List.replicate 25 false).set 12 true).length = 25 ∧
    ((blackoutWin ((List.replicate 25 false).set 12 true) = true ↔
        winSpecBlackout ((List.replicate 25 false).set 12 true)) ∧
      (checkWin ((List.replicate 25 false).set 12 true) = true ↔
        winSpecRegular ((List.replicate 25 false).set 12 true))) :=
  ⟨by decide, checkWin_correct _ (by decide)⟩

-- ---------------------------------------------------------------------
-- C4: generated cards are well formed
-- ---------------------------------------------------------------------

/-- The well-formedness condition a generated card must satisfy: 25
cells, the literal "FREE SPACE" at index 12, and the remaining 24 cells
(the card with index 12 removed) pairwise distinct and drawn from the
pool. -/
def CardOk (card : List String) : Prop :=
  card.length = 25 ∧ card.get? 12 = some "FREE SPACE" ∧
  (card.take 12 ++ card.drop 13).Nodup ∧
  ∀ x ∈ card.take 12 ++ card.drop 13, x ∈ CLICHES

theorem cliches_nodup : CLICHES.Nodup := by decide

theorem cliches_length : CLICHES.length = 35 := by decide

/-- The 24 drawn phrases of a generated card, i.e. the card with the
FREE SPACE cell removed, are exactly the first 24 entries of the
shuffle. -/
theorem splice_take_drop (t : List String) (h : t.length = 24) :
    (spliceInsert t 12 "FREE SPACE").take 12 ++
      (spliceInsert t 12 "FREE SPACE").drop 13 = t := by
  have h1 : (t.take 12).length = 12 := by simp [List.length_take]; omega
  unfold spliceInsert
  rw [List.take_append_eq_append_take, List.drop_append_eq_append_drop, h1]
  simp [List.take_take, List.drop_eq_nil_of_le, h1]

theorem generateBingoCard_rest (shuffled : List String)
    (h24 : 24 ≤ shuffled.length) :
    (generateBingoCard shuffled).take 12 ++ (generateBingoCard shuffled).drop 13 =
      shuffled.take 24 := by
  unfold generateBingoCard
  exact splice_take_drop _ (by simp [List.length_take]; omega)

/-- C4: every generated bingo card has length 25, "FREE SPACE" at index
12, and its other 24 cells are pairwise-distinct elements of the phrase
pool (precondition: the shuffle is a permutation of the pool, which has
at least 24 distinct entries). -/
theorem generateBingoCard_ok (shuffled : List String)
    (hperm : shuffled.Perm CLICHES) :
    CardOk (generateBingoCard shuffled) := by
  have hlen35 : shuffled.length = 35 := by
    rw [hperm.length_eq, cliches_length]
  have h24 : (shuffled.take 24).length = 24 := by
    simp [List.length_take, hlen35]
  have hnd : shuffled.Nodup := hperm.nodup_iff.mpr cliches_nodup
  have hrest := generateBingoCard_rest shuffled (by omega)
  refine ⟨?_, ?_, ?_, ?_⟩
  · unfold generateBingoCard spliceInsert
    simp [List.length_take, h24]
  · unfold generateBingoCard spliceInsert
    have h12 : ((shuffled.take 24).take 12).length = 12 := by
      simp [List.length_take]; omega
    rw [List.get?_append_right (by omega)]
    simp [h12]
  · rw [hrest]
    exact hnd.sublist (List.take_sublist 24 shuffled)
  · rw [hrest]
    intro x hx
    exact hperm.mem_iff.mp (List.mem_of_mem_take hx)

/-- Witness for C4: the identity shuffle (the pool itself) yields a
well-formed card. -/
theorem generateBingoCard_ok_witness : CardOk (generateBingoCard CLICHES) :=
  generateBingoCard_ok CLICHES (List.Perm.refl _)

-- ---------------------------------------------------------------------
-- Data model: players, rooms, server state (src/server.js)
-- ---------------------------------------------------------------------

/-- A player object (`createPlayer` of src/server.js). -/
structure Player where
  id : String
  username : String
  isHost : Bool
  bingoCard : List String
  markedSquares : List Bool
deriving Repr, DecidableEq

/-- A room object (the literal stored by the create-room handler). -/
structure Room where
  code : String
  host : String
  players : List Player
  gameStarted : Bool
  gameMode : String
deriving Repr, DecidableEq

/-- The fresh mark vector of `createPlayer` and of the new-round reset:
25 `false` entries with index 12 (FREE SPACE) forced `true`. -/
def freshMarks : List Bool :=
  (List.replicate 25 false).set 12 true

/-- `createPlayer(socketId, username, isHost)` of src/server.js. -/
def createPlayer (socketId username : String) (isHost : Bool) : Player :=
  { id := socketId, username := username, isHost := isHost,
    bingoCard := [], markedSquares := freshMarks }

/-- The whole server state: the `rooms` Map (an insertion-ordered
association list, as a JS Map is) and the set of room codes with a
pending cleanup timer (`roomTimers`). -/
structure ServerState where
  rooms : List (String × Room)
  roomTimers : List String
deriving Repr, DecidableEq

/-- `rooms.get(code)`: first entry with the given key. -/
def mapLookup (k : String) : List (String × Room) → Option Room
  | [] => none
  | kv :: rest => if kv.1 = k then some kv.2 else mapLookup k rest

/-- `rooms.set(code, room)`: replace the entry in place when the key is
present (JS Map keeps insertion order), append otherwise. -/
def mapSet (k : String) (v : Room) : List (String × Room) → List (String × Room)
  | [] => [(k, v)]
  | kv :: rest => if kv.1 = k then (k, v) :: rest else kv :: mapSet k v rest

/-- `rooms.delete(code)`. -/
def mapDelete (k : String) (m : List (String × Room)) : List (String × Room) :=
  m.filter fun kv => ¬ kv.1 = k

/-- Update the first element satisfying the predicate (the JS pattern of
`find` followed by in-place mutation of the found object). -/
def updateFirst (pred : α → Bool) (f : α → α) : List α → List α
  | [] => []
  | x :: xs => if pred x then f x :: xs else x :: updateFirst pred f xs

/-- Remove the first element satisfying the predicate
(`findIndex` followed by `splice(index, 1)`). -/
def removeFirst (pred : α → Bool) : List α → List α
  | [] => []
  | x :: xs => if pred x then xs else x :: removeFirst pred xs

/-- ASCII uppercasing of a character, as JS `toUpperCase` acts on the
alphabetic room-code strings the server deals in. -/
def upperChar (c : Char) : Char :=
  if 'a' ≤ c ∧ c ≤ 'z' then Char.ofNat (c.toNat - 32) else c

/-- `roomCode.toUpperCase()`. -/
def upperString (s : String) : String :=
  ⟨s.data.map upperChar⟩

/-- The outbound events the handlers emit, with the payload fields the
verified claims talk about. -/
inductive OutEvent where
  | error (conn msg : String)
  | roomCreated (conn code : String)
  | roomJoined (conn code : String)
  | playerJoined (code exceptConn : String)
  | gameStartedEv (conn : String) (card : List String)
  | squareMarked (code pid : String) (index : Nat) (marked : Bool)
  | playerWon (code pid username mode : String) (markedCount : Nat)
  | newRoundStarted (conn : String) (card : List String)
  | blackoutModeStarted (code mode : String)
  | gameFinished (code pid username : String) (markedCount : Nat)
  | newHost (code : String)
  | playerLeft (code : String)
deriving Repr, DecidableEq

-- ---------------------------------------------------------------------
-- Event handlers (the socket.on callbacks of src/server.js)
-- ---------------------------------------------------------------------

/-- create-room handler.  `generateRoomCode()` is random; the fresh code
it returned is the `code` argument. -/
def handleCreateRoom (st : ServerState) (sid username code : String) :
    ServerState × List OutEvent :=
  let player := createPlayer sid username true
  let room : Room :=
    { code := code, host := sid, players := [player],
      gameStarted := false, gameMode := "regular" }
  ({ st with rooms := mapSet code room st.rooms }, [.roomCreated sid code])

/-- join-room handler.  Note the source order: the pending cleanup timer
is cancelled as soon as the room is found, before the `gameStarted`
check. -/
def handleJoinRoom (st : ServerState) (sid roomCode username : String) :
    ServerState × List OutEvent :=
  let code := upperString roomCode
  match mapLookup code st.rooms with
  | none => (st, [.error sid "Room not found"])
  | some room =>
    let st1 : ServerState := { st with roomTimers := st.roomTimers.erase code }
    if room.gameStarted then (st1, [.error sid "Game already in progress"])
    else
      let player := createPlayer sid username false
      let room2 : Room := { room with players := room.players ++ [player] }
      ({ st1 with rooms := mapSet code room2 st1.rooms },
       [.roomJoined sid code, .playerJoined code sid])

/-- The per-player card assignment of the start-game handler; `gen i` is
the card returned by the i-th `generateBingoCard()` call. -/
def assignCards (gen : Nat → List String) : Nat → List Player → List Player
  | _, [] => []
  | i, p :: ps => { p with bingoCard := gen i } :: assignCards gen (i + 1) ps

/-- start-game handler. -/
def handleStartGame (st : ServerState) (sid code : String)
    (gen : Nat → List String) : ServerState × List OutEvent :=
  match mapLookup code st.rooms with
  | none => (st, [.error sid "Room not found"])
  | some room =>
    if room.host = sid then
      let room2 : Room :=
        { room with players := assignCards gen 0 room.players, gameStarted := true }
      ({ st with rooms := mapSet code room2 st.rooms },
       room2.players.map fun p => .gameStartedEv p.id p.bingoCard)
    else (st, [.error sid "Only host can start the game"])

/-- mark-square handler: toggle `marks[index]` of the requesting player
(first entry with the requester id), broadcast square-marked, then run
the win check of the room mode on the updated marks. -/
def handleMarkSquare (st : ServerState) (sid code : String) (idx : Nat) :
    ServerState × List OutEvent :=
  match mapLookup code st.rooms with
  | none => (st, [.error sid "Room not found"])
  | some room =>
    match room.players.find? (fun p => p.id == sid) with
    | none => (st, [.error sid "Player not in room"])
    | some player =>
      let newVal := !(jsGet player.markedSquares idx)
      let marks := jsSet player.markedSquares idx newVal
      let toggle : Player → Player := fun p =>
        { p with markedSquares := jsSet p.markedSquares idx (!(jsGet p.markedSquares idx)) }
      let players2 := updateFirst (fun p => p.id == sid) toggle room.players
      let room2 : Room := { room with players := players2 }
      let hasWon :=
        if room.gameMode = "blackout" then blackoutWin marks else checkWin marks
      let evs :=
        if hasWon then
          [OutEvent.squareMarked code sid idx newVal,
           OutEvent.playerWon code sid player.username room.gameMode
             ((marks.filter fun m => m).length)]
        else [OutEvent.squareMarked code sid idx newVal]
      ({ st with rooms := mapSet code room2 st.rooms }, evs)

/-- The per-player reset of the new-round handler: fresh card, fresh
marks with FREE SPACE forced true. -/
def resetPlayers (gen : Nat → List String) : Nat → List Player → List Player
  | _, [] => []
  | i, p :: ps =>
    { p with bingoCard := gen i, markedSquares := freshMarks } ::
      resetPlayers gen (i + 1) ps

/-- new-round handler. -/
def handleNewRound (st : ServerState) (sid code : String)
    (gen : Nat → List String) : ServerState × List OutEvent :=
  match mapLookup code st.rooms with
  | none => (st, [.error sid "Room not found"])
  | some room =>
    if room.host = sid then
      let room2 : Room :=
        { room with players := resetPlayers gen 0 room.players,
                    gameMode := "regular" }
      ({ st with rooms := mapSet code room2 st.rooms },
       room2.players.map fun p => .newRoundStarted p.id p.bingoCard)
    else (st, [.error sid "Only host can start new round"])

/-- continue-to-blackout handler. -/
def handleContinueBlackout (st : ServerState) (sid code : String) :
    ServerState × List OutEvent :=
  match mapLookup code st.rooms with
  | none => (st, [.error sid "Room not found"])
  | some room =>
    if room.host = sid then
      ({ st with rooms := mapSet code { room with gameMode := "blackout" } st.rooms },
       [.blackoutModeStarted code "blackout"])
    else (st, [.error sid "Only host can continue to blackout"])

/-- `markedSquares.filter(m => m).length`. -/
def countMarked (p : Player) : Nat :=
  (p.markedSquares.filter fun m => m).length

/-- The winner scan of the finish-game handler: linear pass keeping the
current best, replacing it only on a strictly greater count. -/
def winnerFold (players : List Player) (acc : Player × Nat) : Player × Nat :=
  players.foldl
    (fun a p => if countMarked p > a.2 then (p, countMarked p) else a) acc

/-- finish-game handler.  On an empty room the JS code would throw when
reading `room.players[0].markedSquares` (undefined property access); the
model returns no events there, a state no practical trace reaches. -/
def handleFinishGame (st : ServerState) (sid code : String) :
    ServerState × List OutEvent :=
  match mapLookup code st.rooms with
  | none => (st, [.error sid "Room not found"])
  | some room =>
    if room.host = sid then
      match room.players with
      | [] => (st, [])
      | p0 :: rest =>
        let r := winnerFold (p0 :: rest) (p0, countMarked p0)
        (st, [.gameFinished code r.1.id r.1.username r.2])
    else (st, [.error sid "Only host can finish game"])

/-- The per-room effect of the disconnect handler on the room entity:
remove the first player with the disconnecting id; if players remain and
the removed player was host, promote `players[0]` and reassign
`room.host`. -/
def roomAfterDisconnect (sid : String) (r : Room) : Room :=
  match r.players.find? (fun p => p.id == sid) with
  | none => r
  | some player =>
    match removeFirst (fun p => p.id == sid) r.players with
    | [] => { r with players := [] }
    | q :: qs =>
      if player.isHost then
        { r with players := { q with isHost := true } :: qs, host := q.id }
      else { r with players := q :: qs }

/-- The per-room effect of the disconnect handler on the timer map:
schedule cleanup (clearing any stale timer first) when the room became
empty, cancel a pending timer otherwise. -/
def discTimerStep (sid : String) (ts : List String) (kv : String × Room) :
    List String :=
  match kv.2.players.find? (fun p => p.id == sid) with
  | none => ts
  | some _ =>
    if (removeFirst (fun p => p.id == sid) kv.2.players).isEmpty then
      ts.erase kv.1 ++ [kv.1]
    else ts.erase kv.1

/-- The per-room events of the disconnect handler. -/
def discEvents (sid : String) (kv : String × Room) : List OutEvent :=
  match kv.2.players.find? (fun p => p.id == sid) with
  | none => []
  | some player =>
    if (removeFirst (fun p => p.id == sid) kv.2.players).isEmpty then []
    else if player.isHost then [.newHost kv.1] else [.playerLeft kv.1]

/-- disconnect handler: scan every room (a JS `rooms.forEach`). -/
def handleDisconnect (st : ServerState) (sid : String) :
    ServerState × List OutEvent :=
  ({ rooms := st.rooms.map fun kv => (kv.1, roomAfterDisconnect sid kv.2),
     roomTimers := st.rooms.foldl (discTimerStep sid) st.roomTimers },
   st.rooms.foldl (fun evs kv => evs ++ discEvents sid kv) [])

/-- The cleanup-timer callback of `scheduleRoomCleanup`: a cleared timer
never runs, a live one deletes the room only if it is still empty. -/
def fireTimer (st : ServerState) (code : String) : ServerState :=
  if code ∈ st.roomTimers then
    match mapLookup code st.rooms with
    | some room =>
      if room.players.isEmpty then
        { rooms := mapDelete code st.rooms, roomTimers := st.roomTimers.erase code }
      else st
    | none => st
  else st

/-- The inbound events of the protocol.  Randomness (fresh room codes,
shuffled cards) appears as explicit event data, so a trace fixes every
choice the server makes. -/
inductive Event where
  | createRoom (sid username code : String)
  | joinRoom (sid roomCode username : String)
  | startGame (sid roomCode : String) (gen : Nat → List String)
  | markSquare (sid roomCode : String) (index : Nat)
  | newRound (sid roomCode : String) (gen : Nat → List String)
  | continueBlackout (sid roomCode : String)
  | finishGame (sid roomCode : String)
  | disconnect (sid : String)
  | timerFire (code : String)

/-- One step of the session coordinator: dispatch an inbound event. -/
def step (st : ServerState) (e : Event) : ServerState × List OutEvent :=
  match e with
  | .createRoom sid u code => handleCreateRoom st sid u code
  | .joinRoom sid rc u => handleJoinRoom st sid rc u
  | .startGame sid rc gen => handleStartGame st sid rc gen
  | .markSquare sid rc i => handleMarkSquare st sid rc i
  | .newRound sid rc gen => handleNewRound st sid rc gen
  | .continueBlackout sid rc => handleContinueBlackout st sid rc
  | .finishGame sid rc => handleFinishGame st sid rc
  | .disconnect sid => handleDisconnect st sid
  | .timerFire c => (fireTimer st c, [])

/-- Run a trace of inbound events. -/
def run (st : ServerState) (evs : List Event) : ServerState :=
  evs.foldl (fun s e => (step s e).1) st

/-- The state at server start: no rooms, no timers. -/
def initState : ServerState :=
  { rooms := [], roomTimers := [] }

-- ---------------------------------------------------------------------
-- C5: row-0 toggling wins exactly once, on the fifth toggle
-- ---------------------------------------------------------------------

/-- All ways to insert an element into a list. -/
def insertAll (a : α) : List α → List (List α)
  | [] => [[a]]
  | x :: xs => (a :: x :: xs) :: (insertAll a xs).map (x :: ·)

/-- All permutations of a list (structurally recursive enumeration). -/
def permsOf : List α → List (List α)
  | [] => [[]]
  | x :: xs => (permsOf xs).flatMap (insertAll x)

theorem mem_insertAll (a : α) (l₁ l₂ : List α) :
    (l₁ ++ a :: l₂) ∈ insertAll a (l₁ ++ l₂) := by
  induction l₁ with
  | nil =>
    cases l₂ with
    | nil => simp [insertAll]
    | cons x xs => simp [insertAll]
  | cons x t ih =>
    simp only [List.cons_append, insertAll, List.mem_cons]
    exact Or.inr (List.mem_map.mpr ⟨t ++ a :: l₂, ih, rfl⟩)

/-- `permsOf` is complete: it contains every permutation. -/
theorem perm_mem_permsOf : ∀ (l₂ : List α) (l : List α), l.Perm l₂ → l ∈ permsOf l₂ := by
  intro l₂
  induction l₂ with
  | nil => intro l h; simp [permsOf, h.eq_nil]
  | cons x xs ih =>
    intro l h
    have hx : x ∈ l := h.symm.subset (List.mem_cons_self x xs)
    obtain ⟨s, t, rfl⟩ := List.append_of_mem hx
    have h2 : (s ++ t).Perm xs := (List.perm_middle.symm.trans h).cons_inv
    simp only [permsOf, List.mem_flatMap]
    exact ⟨s ++ t, ih (s ++ t) h2, mem_insertAll x s t⟩

/-- Is an outbound event the player-won broadcast? -/
def isPlayerWonEv : OutEvent → Bool
  | .playerWon .. => true
  | _ => false

/-- Feed a sequence of mark-square events for the given player and room
into the server one at a time and record, for each event, how many
player-won broadcasts that event emitted. -/
def markWinCounts (st : ServerState) (sid code : String) : List Nat → List Nat
  | [] => []
  | i :: is =>
    let r := handleMarkSquare st sid code i
    (r.2.filter isPlayerWonEv).length :: markWinCounts r.1 sid code is

/-- A player with the initial mark vector (all false except FREE SPACE). -/
def row0Player : Player := ⟨"s1", "u", true, [], freshMarks⟩

/-- A room in regular mode holding `row0Player`, with the game started. -/
def row0State : ServerState :=
  ⟨[("AAAA", ⟨"AAAA", "s1", [row0Player], true, "regular"⟩)], []⟩

/-- C5: toggling the five cells of row 0 (indices 0..4, in any order)
one at a time, starting from the initial mark vector in a regular-mode
room, emits the player-won broadcast exactly once — on the fifth toggle
and on none of the earlier ones. -/
theorem row0_wins_on_fifth_toggle (ord : List Nat) (h : ord.Perm [0, 1, 2, 3, 4]) :
    markWinCounts row0State "s1" "AAAA" ord = [0, 0, 0, 0, 1] := by
  have hm := perm_mem_permsOf _ _ h
  have hall : ((permsOf [0, 1, 2, 3, 4]).all fun o =>
      markWinCounts row0State "s1" "AAAA" o == [0, 0, 0, 0, 1]) = true := by decide
  exact eq_of_beq (List.all_eq_true.mp hall _ hm)

/-- Witness for C5 at the in-order toggling 0,1,2,3,4. -/
theorem row0_wins_on_fifth_toggle_witness :
    markWinCounts row0State "s1" "AAAA" [0, 1, 2, 3, 4] = [0, 0, 0, 0, 1] :=
  row0_wins_on_fifth_toggle [0, 1, 2, 3, 4] (List.Perm.refl _)

-- ---------------------------------------------------------------------
-- Lemmas about the map and list helpers
-- ---------------------------------------------------------------------

theorem mem_mapSet (k : String) (v : Room) (m : List (String × Room))
    (kv : String × Room) (h : kv ∈ mapSet k v m) : kv ∈ m ∨ kv = (k, v) := by
  induction m with
  | nil => exact Or.inr (List.mem_singleton.mp h)
  | cons kv0 rest ih =>
    unfold mapSet at h
    by_cases he : kv0.1 = k
    · rw [if_pos he] at h
      rcases List.mem_cons.mp h with h1 | h1
      · exact Or.inr h1
      · exact Or.inl (List.mem_cons_of_mem _ h1)
    · rw [if_neg he] at h
      rcases List.mem_cons.mp h with h1 | h1
      · exact Or.inl (h1 ▸ List.mem_cons_self _ _)
      · rcases ih h1 with h2 | h2
        · exact Or.inl (List.mem_cons_of_mem _ h2)
        · exact Or.inr h2

theorem lookup_mem (k : String) (m : List (String × Room)) (r : Room)
    (h : mapLookup k m = some r) : (k, r) ∈ m := by
  induction m with
  | nil => simp [mapLookup] at h
  | cons kv rest ih =>
    unfold mapLookup at h
    by_cases he : kv.1 = k
    · rw [if_pos he] at h
      obtain ⟨k1, v1⟩ := kv
      simp only at he h
      injection h with h2
      subst he
      subst h2
      exact List.mem_cons_self _ _
    · rw [if_neg he] at h
      exact List.mem_cons_of_mem _ (ih h)

theorem mapLookup_mapSet_self (k : String) (v : Room) (m : List (String × Room)) :
    mapLookup k (mapSet k v m) = some v := by
  induction m with
  | nil => simp [mapSet, mapLookup]
  | cons kv rest ih =>
    unfold mapSet
    by_cases he : kv.1 = k
    · rw [if_pos he]
      simp [mapLookup]
    · rw [if_neg he]
      unfold mapLookup
      rw [if_neg he]
      exact ih

theorem mapLookup_mapSet_ne (k k2 : String) (v : Room) (m : List (String × Room))
    (h : k2 ≠ k) : mapLookup k2 (mapSet k v m) = mapLookup k2 m := by
  have hne : ¬ (k = k2) := fun hk => h hk.symm
  induction m with
  | nil => simp [mapSet, mapLookup, hne]
  | cons kv rest ih =>
    unfold mapSet
    by_cases he : kv.1 = k
    · rw [if_pos he]
      unfold mapLookup
      simp only [he, hne, if_false]
    · rw [if_neg he]
      unfold mapLookup
      by_cases he2 : kv.1 = k2
      · rw [if_pos he2, if_pos he2]
      · rw [if_neg he2, if_neg he2]
        exact ih

theorem mem_mapDelete (k : String) (m : List (String × Room)) (kv : String × Room)
    (h : kv ∈ mapDelete k m) : kv ∈ m :=
  (List.mem_filter.mp h).1

theorem mem_updateFirst (pred : α → Bool) (f : α → α) (l : List α) (y : α)
    (h : y ∈ updateFirst pred f l) : y ∈ l ∨ ∃ x ∈ l, y = f x := by
  induction l with
  | nil => simp [updateFirst] at h
  | cons x xs ih =>
    unfold updateFirst at h
    by_cases hp : pred x = true
    · rw [if_pos hp] at h
      rcases List.mem_cons.mp h with h1 | h1
      · exact Or.inr ⟨x, List.mem_cons_self x xs, h1⟩
      · exact Or.inl (List.mem_cons_of_mem _ h1)
    · rw [if_neg hp] at h
      rcases List.mem_cons.mp h with h1 | h1
      · exact Or.inl (h1 ▸ List.mem_cons_self x xs)
      · rcases ih h1 with h2 | ⟨x0, hx0, he⟩
        · exact Or.inl (List.mem_cons_of_mem _ h2)
        · exact Or.inr ⟨x0, List.mem_cons_of_mem _ hx0, he⟩

theorem mem_removeFirst (pred : α → Bool) (l : List α) (y : α)
    (h : y ∈ removeFirst pred l) : y ∈ l := by
  induction l with
  | nil => simp [removeFirst] at h
  | cons x xs ih =>
    unfold removeFirst at h
    by_cases hp : pred x = true
    · rw [if_pos hp] at h
      exact List.mem_cons_of_mem _ h
    · rw [if_neg hp] at h
      rcases List.mem_cons.mp h with h1 | h1
      · exact h1 ▸ List.mem_cons_self x xs
      · exact List.mem_cons_of_mem _ (ih h1)

theorem mem_assignCards (gen : Nat → List String) (i : Nat) (ps : List Player)
    (q : Player) (h : q ∈ assignCards gen i ps) :
    ∃ p ∈ ps, q.id = p.id ∧ q.isHost = p.isHost ∧ q.markedSquares = p.markedSquares := by
  induction ps generalizing i with
  | nil => simp [assignCards] at h
  | cons p ps ih =>
    rcases List.mem_cons.mp h with h1 | h1
    · exact ⟨p, List.mem_cons_self p ps, by simp [h1]⟩
    · rcases ih (i + 1) h1 with ⟨p0, hp0, hq⟩
      exact ⟨p0, List.mem_cons_of_mem _ hp0, hq⟩

theorem mem_resetPlayers (gen : Nat → List String) (i : Nat) (ps : List Player)
    (q : Player) (h : q ∈ resetPlayers gen i ps) :
    ∃ p ∈ ps, q.id = p.id ∧ q.isHost = p.isHost ∧ q.markedSquares = freshMarks := by
  induction ps generalizing i with
  | nil => simp [resetPlayers] at h
  | cons p ps ih =>
    rcases List.mem_cons.mp h with h1 | h1
    · exact ⟨p, List.mem_cons_self p ps, by simp [h1]⟩
    · rcases ih (i + 1) h1 with ⟨p0, hp0, hq⟩
      exact ⟨p0, List.mem_cons_of_mem _ hp0, hq⟩

theorem mapLookup_map_value (g : Room → Room) (c : String) :
    ∀ (l : List (String × Room)),
      mapLookup c (l.map fun kv => (kv.1, g kv.2)) = (mapLookup c l).map g := by
  intro l
  induction l with
  | nil => simp [mapLookup]
  | cons kv rest ih =>
    by_cases he : kv.1 = c
    · simp [mapLookup, he]
    · simp only [List.map_cons, mapLookup, if_neg he]
      exact ih

-- ---------------------------------------------------------------------
-- C2: mark-vector length invariant
-- ---------------------------------------------------------------------

/-- Traces whose mark-square events stay inside the 25-cell card. -/
def goodEvent : Event → Prop
  | .markSquare _ _ i => i < 25
  | _ => True

/-- Every player of the room has a 25-entry mark vector. -/
def RoomMarksOk (r : Room) : Prop :=
  ∀ p ∈ r.players, p.markedSquares.length = 25

/-- Every player of every live room has a 25-entry mark vector. -/
def MarksInv (st : ServerState) : Prop :=
  ∀ kv ∈ st.rooms, RoomMarksOk kv.2

theorem freshMarks_length : freshMarks.length = 25 := by decide

theorem roomMarksOk_afterDisconnect (sid : String) (r : Room) (h : RoomMarksOk r) :
    RoomMarksOk (roomAfterDisconnect sid r) := by
  cases hf : r.players.find? (fun p => p.id == sid) with
  | none => simp only [roomAfterDisconnect, hf]; exact h
  | some player =>
    cases hr : removeFirst (fun p => p.id == sid) r.players with
    | nil =>
      simp only [roomAfterDisconnect, hf, hr]
      intro p hp
      simp at hp
    | cons q qs =>
      by_cases hh : player.isHost = true
      · simp only [roomAfterDisconnect, hf, hr, hh, if_true]
        intro p hp
        rcases List.mem_cons.mp hp with h1 | h1
        · have hq : q ∈ r.players :=
            mem_removeFirst _ _ _ (hr.symm ▸ List.mem_cons_self q qs)
          subst h1
          simpa using h q hq
        · exact h p (mem_removeFirst _ _ _ (hr.symm ▸ List.mem_cons_of_mem q h1))
      · simp only [roomAfterDisconnect, hf, hr, hh, if_false]
        intro p hp
        exact h p (mem_removeFirst _ _ _ (hr.symm ▸ hp))

theorem marksInv_step (st : ServerState) (e : Event) (h : MarksInv st)
    (hg : goodEvent e) : MarksInv (step st e).1 := by
  cases e with
  | createRoom sid u code =>
    simp only [step, handleCreateRoom]
    intro kv hkv
    rcases mem_mapSet _ _ _ _ hkv with h1 | h1
    · exact h kv h1
    · subst h1
      intro p hp
      rcases List.mem_singleton.mp hp with rfl
      exact freshMarks_length
  | joinRoom sid rc u =>
    cases hq : mapLookup (upperString rc) st.rooms with
    | none =>
      simp only [step, handleJoinRoom, hq]
      exact h
    | some room =>
      by_cases hs : room.gameStarted = true
      · simp only [step, handleJoinRoom, hq, hs, if_true]
        exact h
      · simp only [step, handleJoinRoom, hq, hs, if_false]
        intro kv hkv
        rcases mem_mapSet _ _ _ _ hkv with h1 | h1
        · exact h kv h1
        · subst h1
          intro p hp
          rcases List.mem_append.mp hp with h2 | h2
          · exact h _ (lookup_mem _ _ _ hq) p h2
          · rcases List.mem_singleton.mp h2 with rfl
            exact freshMarks_length
  | startGame sid rc gen =>
    cases hq : mapLookup rc st.rooms with
    | none =>
      simp only [step, handleStartGame, hq]
      exact h
    | some room =>
      by_cases hh : room.host = sid
      · simp only [step, handleStartGame, hq, hh, if_true]
        intro kv hkv
        rcases mem_mapSet _ _ _ _ hkv with h1 | h1
        · exact h kv h1
        · subst h1
          intro p hp
          rcases mem_assignCards _ _ _ _ hp with ⟨p0, hp0, _, _, hm⟩
          rw [hm]
          exact h _ (lookup_mem _ _ _ hq) p0 hp0
      · simp only [step, handleStartGame, hq, hh, if_false]
        exact h
  | markSquare sid rc idx =>
    cases hq : mapLookup rc st.rooms with
    | none =>
      simp only [step, handleMarkSquare, hq]
      exact h
    | some room =>
      cases hf : room.players.find? (fun p => p.id == sid) with
      | none =>
        simp only [step, handleMarkSquare, hq, hf]
        exact h
      | some player =>
        simp only [step, handleMarkSquare, hq, hf]
        intro kv hkv
        rcases mem_mapSet _ _ _ _ hkv with h1 | h1
        · exact h kv h1
        · subst h1
          intro p hp
          rcases mem_updateFirst _ _ _ _ hp with h2 | ⟨x, hx, rfl⟩
          · exact h _ (lookup_mem _ _ _ hq) p h2
          · have hx25 : x.markedSquares.length = 25 :=
              h _ (lookup_mem _ _ _ hq) x hx
            have hlt : idx < x.markedSquares.length := by
              rw [hx25]; exact hg
            show (jsSet x.markedSquares idx (!(jsGet x.markedSquares idx))).length = 25
            rw [jsSet_length _ _ _ hlt]
            exact hx25
  | newRound sid rc gen =>
    cases hq : mapLookup rc st.rooms with
    | none =>
      simp only [step, handleNewRound, hq]
      exact h
    | some room =>
      by_cases hh : room.host = sid
      · simp only [step, handleNewRound, hq, hh, if_true]
        intro kv hkv
        rcases mem_mapSet _ _ _ _ hkv with h1 | h1
        · exact h kv h1
        · subst h1
          intro p hp
          rcases mem_resetPlayers _ _ _ _ hp with ⟨p0, hp0, _, _, hm⟩
          rw [hm]
          exact freshMarks_length
      · simp only [step, handleNewRound, hq, hh, if_false]
        exact h
  | continueBlackout sid rc =>
    cases hq : mapLookup rc st.rooms with
    | none =>
      simp only [step, handleContinueBlackout, hq]
      exact h
    | some room =>
      by_cases hh : room.host = sid
      · simp only [step, handleContinueBlackout, hq, hh, if_true]
        intro kv hkv
        rcases mem_mapSet _ _ _ _ hkv with h1 | h1
        · exact h kv h1
        · subst h1
          intro p hp
          exact h _ (lookup_mem _ _ _ hq) p hp
      · simp only [step, handleContinueBlackout, hq, hh, if_false]
        exact h
  | finishGame sid rc =>
    cases hq : mapLookup rc st.rooms with
    | none =>
      simp only [step, handleFinishGame, hq]
      exact h
    | some room =>
      by_cases hh : room.host = sid
      · cases hp : room.players with
        | nil => simp only [step, handleFinishGame, hq, hh, hp, if_true]; exact h
        | cons p0 rest => simp only [step, handleFinishGame, hq, hh, hp, if_true]; exact h
      · simp only [step, handleFinishGame, hq, hh, if_false]
        exact h
  | disconnect sid =>
    simp only [step, handleDisconnect]
    intro kv hkv
    rcases List.mem_map.mp hkv with ⟨kv0, h0, rfl⟩
    exact roomMarksOk_afterDisconnect sid kv0.2 (h kv0 h0)
  | timerFire c =>
    simp only [step]
    by_cases hmem : c ∈ st.roomTimers
    · cases hq : mapLookup c st.rooms with
      | none => simp only [fireTimer, hmem, hq, if_true]; exact h
      | some room =>
        by_cases he : room.players.isEmpty = true
        · simp only [fireTimer, hmem, hq, he, if_true]
          intro kv hkv
          exact h kv (mem_mapDelete _ _ _ hkv)
        · simp only [fireTimer, hmem, hq, he, if_true, if_false]
          exact h
    · simp only [fireTimer, hmem, if_false]
      exact h

/-- Any state predicate preserved by every (good) step holds after every
(good) trace. -/
theorem run_preserves (P : ServerState → Prop) (G : Event → Prop)
    (hstep : ∀ st e, P st → G e → P (step st e).1) :
    ∀ (evs : List Event) (st : ServerState), P st → (∀ e ∈ evs, G e) →
      P (run st evs) := by
  intro evs
  induction evs with
  | nil => intro st hst _; exact hst
  | cons e rest ih =>
    intro st hst hg
    exact ih (step st e).1 (hstep st e hst (hg e (List.mem_cons_self e rest)))
      (fun e2 he2 => hg e2 (List.mem_cons_of_mem e he2))

/-- C2 as stated is false: a mark-square event whose client-supplied
index is 25 grows the marks array of a freshly created player to 26
entries. -/
theorem marks_length_counterexample :
    ((mapLookup "AAAA" (run initState [Event.createRoom "s1" "u1" "AAAA",
        Event.markSquare "s1" "AAAA" 25]).rooms).map
      fun room => room.players.map fun p => p.markedSquares.length) =
      some [26] := by decide

/-- C2 (amended): after any trace of handler invocations in which every
mark-square index is below 25, every player of every live room has a
marks vector of length exactly 25. -/
theorem marks_length_invariant (evs : List Event)
    (hg : ∀ e ∈ evs, goodEvent e) : MarksInv (run initState evs) := by
  apply run_preserves MarksInv goodEvent marksInv_step evs initState
  · intro kv hkv
    simp [initState] at hkv
  · exact hg

/-- Witness for C2 on a short in-range trace. -/
theorem marks_length_invariant_witness :
    MarksInv (run initState [Event.createRoom "s1" "u1" "AAAA",
      Event.markSquare "s1" "AAAA" 3]) := by
  apply marks_length_invariant
  intro e he
  rcases List.mem_cons.mp he with rfl | he2
  · trivial
  · rcases List.mem_cons.mp he2 with rfl | he3
    · show 3 < 25
      decide
    · simp at he3

-- ---------------------------------------------------------------------
-- C6: host validity
-- ---------------------------------------------------------------------

/-- The host shape the code actually maintains: every player after the
first has `isHost = false`, and when the first player is flagged host
the room's `host` field is that player's connection id. -/
def HostOk (r : Room) : Prop :=
  (∀ q ∈ r.players.tail, q.isHost = false) ∧
  (∀ p0, r.players.head? = some p0 → p0.isHost = true → r.host = p0.id)

theorem hostOk_afterDisconnect (sid : String) (r : Room) (h : HostOk r) :
    HostOk (roomAfterDisconnect sid r) := by
  cases hps : r.players with
  | nil =>
    have hf : r.players.find? (fun p => p.id == sid) = none := by
      rw [hps]; rfl
    simp only [roomAfterDisconnect, hf]
    exact h
  | cons p rest =>
    by_cases hp : (p.id == sid) = true
    · have hf : r.players.find? (fun p => p.id == sid) = some p := by
        rw [hps]; exact List.find?_cons_of_pos _ hp
      have hrm : removeFirst (fun p => p.id == sid) r.players = rest := by
        rw [hps]; simp [removeFirst, hp]
      cases hrest : rest with
      | nil =>
        simp only [roomAfterDisconnect, hf, hrm, hrest]
        exact ⟨by intro q hq; simp at hq, by intro p0 h0; simp at h0⟩
      | cons q qs =>
        by_cases hh : p.isHost = true
        · simp only [roomAfterDisconnect, hf, hrm, hrest, hh, if_true]
          constructor
          · intro x hx
            apply h.1
            rw [hps, hrest]
            exact List.mem_cons_of_mem _ hx
          · intro p0 h0 _
            simp at h0
            rw [← h0]
        · simp only [roomAfterDisconnect, hf, hrm, hrest, hh, if_false]
          constructor
          · intro x hx
            apply h.1
            rw [hps, hrest]
            exact List.mem_cons_of_mem _ hx
          · intro p0 h0 hph
            exfalso
            have hq : q.isHost = false := by
              apply h.1
              rw [hps, hrest]
              exact List.mem_cons_self _ _
            simp at h0
            rw [← h0] at hph
            rw [hph] at hq
            exact Bool.true_eq_false.mp hq
    · have hf : r.players.find? (fun p => p.id == sid) = rest.find? (fun p => p.id == sid) := by
        rw [hps]; exact List.find?_cons_of_neg _ (by simp [hp])
      have hrm : removeFirst (fun p => p.id == sid) r.players =
          p :: removeFirst (fun p => p.id == sid) rest := by
        rw [hps]; simp [removeFirst, hp]
      cases hfr : rest.find? (fun p => p.id == sid) with
      | none =>
        rw [hfr] at hf
        simp only [roomAfterDisconnect, hf]
        exact h
      | some player =>
        rw [hfr] at hf
        have hpl : player.isHost = false := by
          apply h.1
          rw [hps]
          exact List.mem_of_find?_eq_some hfr
        simp only [roomAfterDisconnect, hf, hrm, hpl, Bool.false_eq_true, if_false]
        constructor
        · intro x hx
          apply h.1
          rw [hps]
          exact mem_removeFirst _ _ _ hx
        · intro p0 h0 hph
          simp at h0
          rw [← h0] at hph
          have := h.2 p (by rw [hps]; rfl) hph
          rw [this, h0]

theorem hostInv_step (st : ServerState) (e : Event)
    (h : ∀ kv ∈ st.rooms, HostOk kv.2) :
    ∀ kv ∈ (step st e).1.rooms, HostOk kv.2 := by
  cases e with
  | createRoom sid u code =>
    simp only [step, handleCreateRoom]
    intro kv hkv
    rcases mem_mapSet _ _ _ _ hkv with h1 | h1
    · exact h kv h1
    · subst h1
      exact ⟨by intro q hq; simp [createPlayer] at hq, by intro p0 h0 _; simp [createPlayer] at h0; rw [← h0]⟩
  | joinRoom sid rc u =>
    cases hq : mapLookup (upperString rc) st.rooms with
    | none => simp only [step, handleJoinRoom, hq]; exact h
    | some room =>
      by_cases hs : room.gameStarted = true
      · simp only [step, handleJoinRoom, hq, hs, if_true]; exact h
      · simp only [step, handleJoinRoom, hq, hs, if_false]
        intro kv hkv
        rcases mem_mapSet _ _ _ _ hkv with h1 | h1
        · exact h kv h1
        · subst h1
          have hr := h _ (lookup_mem _ _ _ hq)
          cases hps : room.players with
          | nil =>
            constructor
            · intro q hq2
              simp only [hps, List.nil_append] at hq2
              simp at hq2
            · intro p0 h0 hph
              simp only [hps, List.nil_append] at h0
              simp at h0
              rw [← h0] at hph
              simp [createPlayer] at hph
          | cons a l0 =>
            constructor
            · intro q hq2
              simp only [hps, List.cons_append, List.tail_cons] at hq2
              rcases List.mem_append.mp hq2 with h2 | h2
              · exact hr.1 q (by rw [hps]; exact h2)
              · rcases List.mem_singleton.mp h2 with rfl
                simp [createPlayer]
            · intro p0 h0 hph
              simp only [hps, List.cons_append, List.head?_cons] at h0
              have := hr.2 p0 (by rw [hps]; rw [← h0]; rfl) hph
              exact this
  | startGame sid rc gen =>
    cases hq : mapLookup rc st.rooms with
    | none => simp only [step, handleStartGame, hq]; exact h
    | some room =>
      by_cases hh : room.host = sid
      · simp only [step, handleStartGame, hq, hh, if_true]
        intro kv hkv
        rcases mem_mapSet _ _ _ _ hkv with h1 | h1
        · exact h kv h1
        · subst h1
          have hr := h _ (lookup_mem _ _ _ hq)
          cases hps : room.players with
          | nil =>
            constructor
            · intro q hq2; simp [hps, assignCards] at hq2
            · intro p0 h0; simp [hps, assignCards] at h0
          | cons a l0 =>
            constructor
            · intro q hq2
              simp only [hps, assignCards, List.tail_cons] at hq2
              rcases mem_assignCards _ _ _ _ hq2 with ⟨p1, hp1, _, hhost, _⟩
              rw [hhost]
              exact hr.1 p1 (by rw [hps]; exact hp1)
            · intro p0 h0 hph
              simp only [hps, assignCards, List.head?_cons, Option.some.injEq] at h0
              subst h0
              show sid = a.id
              rw [← hh]
              exact hr.2 a (by rw [hps]; rfl) hph
      · simp only [step, handleStartGame, hq, hh, if_false]; exact h
  | markSquare sid rc idx =>
    cases hq : mapLookup rc st.rooms with
    | none => simp only [step, handleMarkSquare, hq]; exact h
    | some room =>
      cases hf : room.players.find? (fun p => p.id == sid) with
      | none => simp only [step, handleMarkSquare, hq, hf]; exact h
      | some player =>
        simp only [step, handleMarkSquare, hq, hf]
        intro kv hkv
        rcases mem_mapSet _ _ _ _ hkv with h1 | h1
        · exact h kv h1
        · subst h1
          have hr := h _ (lookup_mem _ _ _ hq)
          cases hps : room.players with
          | nil =>
            constructor
            · intro q hq2; simp [hps, updateFirst] at hq2
            · intro p0 h0; simp [hps, updateFirst] at h0
          | cons a l0 =>
            by_cases hpa : (a.id == sid) = true
            · constructor
              · intro q hq2
                simp only [hps, updateFirst, hpa, if_true, List.tail_cons] at hq2
                exact hr.1 q (by rw [hps]; exact hq2)
              · intro p0 h0 hph
                simp only [hps, updateFirst, hpa, if_true, List.head?_cons,
                  Option.some.injEq] at h0
                subst h0
                show room.host = a.id
                exact hr.2 a (by rw [hps]; rfl) hph
            · constructor
              · intro q hq2
                simp only [hps, updateFirst, hpa, Bool.false_eq_true, if_false,
                  List.tail_cons] at hq2
                rcases mem_updateFirst _ _ _ _ hq2 with h2 | ⟨x, hx, rfl⟩
                · exact hr.1 q (by rw [hps]; exact h2)
                · have := hr.1 x (by rw [hps]; exact hx)
                  simpa using this
              · intro p0 h0 hph
                simp only [hps, updateFirst, hpa, Bool.false_eq_true, if_false,
                  List.head?_cons, Option.some.injEq] at h0
                subst h0
                show room.host = a.id
                exact hr.2 a (by rw [hps]; rfl) hph
  | newRound sid rc gen =>
    cases hq : mapLookup rc st.rooms with
    | none => simp only [step, handleNewRound, hq]; exact h
    | some room =>
      by_cases hh : room.host = sid
      · simp only [step, handleNewRound, hq, hh, if_true]
        intro kv hkv
        rcases mem_mapSet _ _ _ _ hkv with h1 | h1
        · exact h kv h1
        · subst h1
          have hr := h _ (lookup_mem _ _ _ hq)
          cases hps : room.players with
          | nil =>
            constructor
            · intro q hq2; simp [hps, resetPlayers] at hq2
            · intro p0 h0; simp [hps, resetPlayers] at h0
          | cons a l0 =>
            constructor
            · intro q hq2
              simp only [hps, resetPlayers, List.tail_cons] at hq2
              rcases mem_resetPlayers _ _ _ _ hq2 with ⟨p1, hp1, _, hhost, _⟩
              rw [hhost]
              exact hr.1 p1 (by rw [hps]; exact hp1)
            · intro p0 h0 hph
              simp only [hps, resetPlayers, List.head?_cons, Option.some.injEq] at h0
              subst h0
              show sid = a.id
              rw [← hh]
              exact hr.2 a (by rw [hps]; rfl) hph
      · simp only [step, handleNewRound, hq, hh, if_false]; exact h
  | continueBlackout sid rc =>
    cases hq : mapLookup rc st.rooms with
    | none => simp only [step, handleContinueBlackout, hq]; exact h
    | some room =>
      by_cases hh : room.host = sid
      · simp only [step, handleContinueBlackout, hq, hh, if_true]
        intro kv hkv
        rcases mem_mapSet _ _ _ _ hkv with h1 | h1
        · exact h kv h1
        · subst h1
          have hr := h _ (lookup_mem _ _ _ hq)
          constructor
          · intro q hq2
            exact hr.1 q hq2
          · intro p0 h0 hph
            show sid = p0.id
            rw [← hh]
            exact hr.2 p0 h0 hph
      · simp only [step, handleContinueBlackout, hq, hh, if_false]; exact h
  | finishGame sid rc =>
    cases hq : mapLookup rc st.rooms with
    | none => simp only [step, handleFinishGame, hq]; exact h
    | some room =>
      by_cases hh : room.host = sid
      · cases hp : room.players with
        | nil => simp only [step, handleFinishGame, hq, hh, hp, if_true]; exact h
        | cons p0 rest => simp only [step, handleFinishGame, hq, hh, hp, if_true]; exact h
      · simp only [step, handleFinishGame, hq, hh, if_false]; exact h
  | disconnect sid =>
    simp only [step, handleDisconnect]
    intro kv hkv
    rcases List.mem_map.mp hkv with ⟨kv0, h0, rfl⟩
    exact hostOk_afterDisconnect sid kv0.2 (h kv0 h0)
  | timerFire c =>
    simp only [step]
    by_cases hmem : c ∈ st.roomTimers
    · cases hq : mapLookup c st.rooms with
      | none => simp only [fireTimer, hmem, hq, if_true]; exact h
      | some room =>
        by_cases he : room.players.isEmpty = true
        · simp only [fireTimer, hmem, hq, he, if_true]
          intro kv hkv
          exact h kv (mem_mapDelete _ _ _ hkv)
        · simp only [fireTimer, hmem, hq, he, if_true, if_false]; exact h
    · simp only [fireTimer, hmem, if_false]; exact h

/-- C6 as stated is false: joining a room whose players all disconnected
(a pending-expiry room being revived) yields a non-empty room in which
no player has `isHost = true` and `hostConnectionId` (the stale id of
the departed host) matches no player — not exactly one of each. -/
theorem host_validity_counterexample :
    ((mapLookup "AAAA" (run initState [Event.createRoom "s1" "u1" "AAAA",
        Event.disconnect "s1", Event.joinRoom "s2" "AAAA" "u2"]).rooms).map
      fun room => (room.players.length,
        (room.players.filter fun p => p.isHost).length,
        (room.players.filter fun p => p.id == room.host).length)) =
      some (1, 0, 0) := by decide

/-- C6 (amended): in every reachable state, every room has at most one
host-flagged player; if one exists it is the first player and the
room's `host` field is its connection id (a room revived from empty may
have no host at all, and a connection that joined twice may match
`host` more than once).  And the disconnect handler, when the departing
player is the host-flagged head and other players remain, promotes the
next player: it sets that player's `isHost` and the room's `host`. -/
theorem host_validity :
    (∀ (evs : List Event), ∀ kv ∈ (run initState evs).rooms, HostOk kv.2) ∧
    (∀ (st : ServerState) (c sid : String) (room : Room) (p q : Player)
        (qs : List Player),
      mapLookup c st.rooms = some room →
      room.players = p :: q :: qs → p.isHost = true → p.id = sid →
      mapLookup c (handleDisconnect st sid).1.rooms =
        some { room with players := ({ q with isHost := true } :: qs), host := q.id }) := by
  constructor
  · intro evs
    apply run_preserves (fun st => ∀ kv ∈ st.rooms, HostOk kv.2) (fun _ => True)
      (fun st e hst _ => hostInv_step st e hst) evs initState
    · intro kv hkv
      simp [initState] at hkv
    · intro _ _
      trivial
  · intro st c sid room p q qs hc hp hhost hpid
    have hmap : (handleDisconnect st sid).1.rooms =
        st.rooms.map fun kv => (kv.1, roomAfterDisconnect sid kv.2) := rfl
    rw [hmap, mapLookup_map_value (roomAfterDisconnect sid) c st.rooms, hc]
    show some (roomAfterDisconnect sid room) = _
    have hpred : (p.id == sid) = true := by
      rw [hpid]
      exact beq_self_eq_true sid
    have hf : room.players.find? (fun x => x.id == sid) = some p := by
      rw [hp]
      exact List.find?_cons_of_pos _ hpred
    have hrm : removeFirst (fun x => x.id == sid) room.players = q :: qs := by
      rw [hp]
      simp [removeFirst, hpred]
    simp only [roomAfterDisconnect, hf, hrm, hhost, if_true]

/-- Witness for C6: the invariant at a freshly created room, and the
promotion at a two-player room whose host disconnects. -/
theorem host_validity_witness :
    HostOk (⟨"AAAA", "s1", [createPlayer "s1" "u1" true], false, "regular"⟩ : Room) ∧
    mapLookup "BBBB" (handleDisconnect
        (⟨[("BBBB", ⟨"BBBB", "h1", [⟨"h1", "u1", true, [], freshMarks⟩,
            ⟨"g1", "u2", false, [], freshMarks⟩], false, "regular"⟩)], []⟩ :
          ServerState) "h1").1.rooms =
      some ⟨"BBBB", "g1", [⟨"g1", "u2", true, [], freshMarks⟩], false, "regular"⟩ := by
  constructor
  · exact host_validity.1 [Event.createRoom "s1" "u1" "AAAA"]
      ("AAAA", ⟨"AAAA", "s1", [createPlayer "s1" "u1" true], false, "regular"⟩)
      (by decide)
  · exact host_validity.2
      ⟨[("BBBB", ⟨"BBBB", "h1", [⟨"h1", "u1", true, [], freshMarks⟩,
          ⟨"g1", "u2", false, [], freshMarks⟩], false, "regular"⟩)], []⟩
      "BBBB" "h1"
      ⟨"BBBB", "h1", [⟨"h1", "u1", true, [], freshMarks⟩,
        ⟨"g1", "u2", false, [], freshMarks⟩], false, "regular"⟩
      ⟨"h1", "u1", true, [], freshMarks⟩ ⟨"g1", "u2", false, [], freshMarks⟩ []
      rfl rfl rfl rfl

-- ---------------------------------------------------------------------
-- C3: the GameInProgress error path of join-room mutates timer state
-- ---------------------------------------------------------------------

/-- C3 fails on the code: after create-room, start-game and the host
disconnecting, the room sits empty (gameStarted) with a pending cleanup
timer; a join-room then emits only the GameInProgress error, yet the
handler has already cancelled the pending idle-expiry timer for the
room, because `cancelRoomCleanup` runs before the `gameStarted` check. -/
theorem join_error_cancels_timer :
    (run initState [Event.createRoom "s1" "u1" "AAAA",
        Event.startGame "s1" "AAAA" (fun _ => []),
        Event.disconnect "s1"]).roomTimers = ["AAAA"] ∧
    (handleJoinRoom (run initState [Event.createRoom "s1" "u1" "AAAA",
        Event.startGame "s1" "AAAA" (fun _ => []),
        Event.disconnect "s1"]) "s2" "AAAA" "u2").2 =
      [OutEvent.error "s2" "Game already in progress"] ∧
    (handleJoinRoom (run initState [Event.createRoom "s1" "u1" "AAAA",
        Event.startGame "s1" "AAAA" (fun _ => []),
        Event.disconnect "s1"]) "s2" "AAAA" "u2").1.roomTimers = [] := by
  refine ⟨rfl, rfl, rfl⟩

-- ---------------------------------------------------------------------
-- C7: finish-game announces the first player with the maximum count
-- ---------------------------------------------------------------------

/-- The winner the claim describes: its count is `M`, no player beats
`M`, and every player strictly before the winner in join order has a
strictly smaller count (so ties go to the earliest). -/
def WinnerSpec (players : List Player) (w : Player) (M : Nat) : Prop :=
  countMarked w = M ∧ (∀ p ∈ players, countMarked p ≤ M) ∧
  ∃ l₁ l₂, players = l₁ ++ w :: l₂ ∧ ∀ p ∈ l₁, countMarked p < M

theorem winnerFold_spec (ps : List Player) (w : Player) :
    countMarked (winnerFold ps (w, countMarked w)).1 =
      (winnerFold ps (w, countMarked w)).2 ∧
    countMarked w ≤ (winnerFold ps (w, countMarked w)).2 ∧
    (∀ p ∈ ps, countMarked p ≤ (winnerFold ps (w, countMarked w)).2) ∧
    ((winnerFold ps (w, countMarked w)).1 = w ∨
      ∃ l₁ l₂, ps = l₁ ++ (winnerFold ps (w, countMarked w)).1 :: l₂ ∧
        countMarked w < (winnerFold ps (w, countMarked w)).2 ∧
        ∀ p ∈ l₁, countMarked p < (winnerFold ps (w, countMarked w)).2) := by
  induction ps generalizing w with
  | nil =>
    refine ⟨rfl, le_refl _, ?_, Or.inl rfl⟩
    intro p hp
    simp at hp
  | cons q ps ih =>
    by_cases hq : countMarked q > countMarked w
    · have hstep : winnerFold (q :: ps) (w, countMarked w) =
          winnerFold ps (q, countMarked q) := by
        simp [winnerFold, hq]
      rw [hstep]
      obtain ⟨ih1, ih2, ih3, ih4⟩ := ih q
      refine ⟨ih1, le_trans (le_of_lt hq) ih2, ?_, ?_⟩
      · intro p hp
        rcases List.mem_cons.mp hp with rfl | hp2
        · exact ih2
        · exact ih3 p hp2
      · rcases ih4 with hw | ⟨l₁, l₂, hps, hq2, hl₁⟩
        · refine Or.inr ⟨[], ps, ?_, ?_, ?_⟩
          · rw [hw]
            rfl
          · exact lt_of_lt_of_le hq ih2
          · intro p hp
            simp at hp
        · refine Or.inr ⟨q :: l₁, l₂, ?_, ?_, ?_⟩
          · exact congrArg (List.cons q) hps
          · exact lt_trans hq hq2
          · intro p hp
            rcases List.mem_cons.mp hp with rfl | hp2
            · exact hq2
            · exact hl₁ p hp2
    · have hstep : winnerFold (q :: ps) (w, countMarked w) =
          winnerFold ps (w, countMarked w) := by
        simp [winnerFold, hq]
      rw [hstep]
      obtain ⟨ih1, ih2, ih3, ih4⟩ := ih w
      have hqw : countMarked q ≤ countMarked w := le_of_not_lt hq
      refine ⟨ih1, ih2, ?_, ?_⟩
      · intro p hp
        rcases List.mem_cons.mp hp with rfl | hp2
        · exact le_trans hqw ih2
        · exact ih3 p hp2
      · rcases ih4 with hw | ⟨l₁, l₂, hps, hw2, hl₁⟩
        · exact Or.inl hw
        · refine Or.inr ⟨q :: l₁, l₂, ?_, ?_, ?_⟩
          · exact congrArg (List.cons q) hps
          · exact hw2
          · intro p hp
            rcases List.mem_cons.mp hp with rfl | hp2
            · exact lt_of_le_of_lt hqw hw2
            · exact hl₁ p hp2

/-- C7: for every non-empty room, finish-game sent by the host leaves
the state unchanged and announces the player with the maximum mark
count (ties to the earliest in join order, since the linear scan only
replaces on a strictly greater count), reporting that maximum as
`markedCount`. -/
theorem finish_game_winner (st : ServerState) (sid code : String) (room : Room)
    (p0 : Player) (rest : List Player)
    (hc : mapLookup code st.rooms = some room) (hhost : room.host = sid)
    (hp : room.players = p0 :: rest) :
    (handleFinishGame st sid code).1 = st ∧
    (handleFinishGame st sid code).2 =
      [OutEvent.gameFinished code (winnerFold (p0 :: rest) (p0, countMarked p0)).1.id
        (winnerFold (p0 :: rest) (p0, countMarked p0)).1.username
        (winnerFold (p0 :: rest) (p0, countMarked p0)).2] ∧
    WinnerSpec room.players (winnerFold (p0 :: rest) (p0, countMarked p0)).1
      (winnerFold (p0 :: rest) (p0, countMarked p0)).2 := by
  have hred : handleFinishGame st sid code =
      (st, [OutEvent.gameFinished code
        (winnerFold (p0 :: rest) (p0, countMarked p0)).1.id
        (winnerFold (p0 :: rest) (p0, countMarked p0)).1.username
        (winnerFold (p0 :: rest) (p0, countMarked p0)).2]) := by
    simp [handleFinishGame, hc, hhost, hp]
  obtain ⟨s1, s2, s3, s4⟩ := winnerFold_spec (p0 :: rest) p0
  refine ⟨by rw [hred], by rw [hred], s1, ?_, ?_⟩
  · intro p hpm
    rw [hp] at hpm
    exact s3 p hpm
  · rcases s4 with hw | ⟨l₁, l₂, hps, _, hl₁⟩
    · refine ⟨[], rest, ?_, ?_⟩
      · rw [hp, hw]
        rfl
      · intro p hpm
        simp at hpm
    · refine ⟨l₁, l₂, ?_, hl₁⟩
      rw [hp]
      exact hps

/-- Witness for C7: a two-player tie (both have only FREE SPACE marked)
is resolved in favour of the first player in join order. -/
theorem finish_game_winner_witness :
    (handleFinishGame (⟨[("CCCC", ⟨"CCCC", "h2",
        [⟨"a1", "ua", true, [], freshMarks⟩, ⟨"b1", "ub", false, [], freshMarks⟩],
        true, "regular"⟩)], []⟩ : ServerState) "h2" "CCCC").1 =
      (⟨[("CCCC", ⟨"CCCC", "h2",
        [⟨"a1", "ua", true, [], freshMarks⟩, ⟨"b1", "ub", false, [], freshMarks⟩],
        true, "regular"⟩)], []⟩ : ServerState) ∧
    (handleFinishGame (⟨[("CCCC", ⟨"CCCC", "h2",
        [⟨"a1", "ua", true, [], freshMarks⟩, ⟨"b1", "ub", false, [], freshMarks⟩],
        true, "regular"⟩)], []⟩ : ServerState) "h2" "CCCC").2 =
      [OutEvent.gameFinished "CCCC"
        (winnerFold [⟨"a1", "ua", true, [], freshMarks⟩, ⟨"b1", "ub", false, [], freshMarks⟩]
          (⟨"a1", "ua", true, [], freshMarks⟩, countMarked ⟨"a1", "ua", true, [], freshMarks⟩)).1.id
        (winnerFold [⟨"a1", "ua", true, [], freshMarks⟩, ⟨"b1", "ub", false, [], freshMarks⟩]
          (⟨"a1", "ua", true, [], freshMarks⟩, countMarked ⟨"a1", "ua", true, [], freshMarks⟩)).1.username
        (winnerFold [⟨"a1", "ua", true, [], freshMarks⟩, ⟨"b1", "ub", false, [], freshMarks⟩]
          (⟨"a1", "ua", true, [], freshMarks⟩, countMarked ⟨"a1", "ua", true, [], freshMarks⟩)).2] ∧
    WinnerSpec (⟨"CCCC", "h2",
        [⟨"a1", "ua", true, [], freshMarks⟩, ⟨"b1", "ub", false, [], freshMarks⟩],
        true, "regular"⟩ : Room).players
      (winnerFold [⟨"a1", "ua", true, [], freshMarks⟩, ⟨"b1", "ub", false, [], freshMarks⟩]
        (⟨"a1", "ua", true, [], freshMarks⟩, countMarked ⟨"a1", "ua", true, [], freshMarks⟩)).1
      (winnerFold [⟨"a1", "ua", true, [], freshMarks⟩, ⟨"b1", "ub", false, [], freshMarks⟩]
        (⟨"a1", "ua", true, [], freshMarks⟩, countMarked ⟨"a1", "ua", true, [], freshMarks⟩)).2 :=
  finish_game_winner _ "h2" "CCCC"
    ⟨"CCCC", "h2", [⟨"a1", "ua", true, [], freshMarks⟩, ⟨"b1", "ub", false, [], freshMarks⟩],
      true, "regular"⟩
    ⟨"a1", "ua", true, [], freshMarks⟩ [⟨"b1", "ub", false, [], freshMarks⟩]
    rfl rfl rfl

-- ---------------------------------------------------------------------
-- C8: continue-to-blackout only changes the game mode
-- ---------------------------------------------------------------------

/-- The frame property of the continue-to-blackout handler: it emits
exactly the blackout-mode-started broadcast, leaves the timers and all
other rooms untouched, and the room itself changes only in `gameMode`
(the record update keeps `code`, `host`, `players` — hence every card
and mark vector — and `gameStarted`). -/
def BlackoutFrame (st st2 : ServerState) (code : String) (room : Room)
    (evs : List OutEvent) : Prop :=
  evs = [OutEvent.blackoutModeStarted code "blackout"] ∧
  st2.roomTimers = st.roomTimers ∧
  mapLookup code st2.rooms = some { room with gameMode := "blackout" } ∧
  ∀ c2, c2 ≠ code → mapLookup c2 st2.rooms = mapLookup c2 st.rooms

/-- C8: continue-to-blackout, sent by the host of an existing room,
changes only that room's gameMode and broadcasts blackout-mode-started
to the room. -/
theorem continue_blackout_frame (st : ServerState) (sid code : String)
    (room : Room) (hc : mapLookup code st.rooms = some room)
    (hhost : room.host = sid) :
    BlackoutFrame st (handleContinueBlackout st sid code).1 code room
      (handleContinueBlackout st sid code).2 := by
  have hred : handleContinueBlackout st sid code =
      ({ st with rooms := mapSet code { room with gameMode := "blackout" } st.rooms },
       [OutEvent.blackoutModeStarted code "blackout"]) := by
    simp [handleContinueBlackout, hc, hhost]
  refine ⟨by rw [hred], by rw [hred], ?_, ?_⟩
  · rw [hred]
    exact mapLookup_mapSet_self _ _ _
  · intro c2 hne
    rw [hred]
    exact mapLookup_mapSet_ne _ _ _ _ hne

/-- Witness for C8 at a one-room state. -/
theorem continue_blackout_frame_witness :
    BlackoutFrame (⟨[("DDDD", ⟨"DDDD", "h4", [⟨"h4", "u4", true, [], freshMarks⟩],
        true, "regular"⟩)], ["EEEE"]⟩ : ServerState)
      (handleContinueBlackout (⟨[("DDDD", ⟨"DDDD", "h4",
        [⟨"h4", "u4", true, [], freshMarks⟩], true, "regular"⟩)], ["EEEE"]⟩ :
        ServerState) "h4" "DDDD").1
      "DDDD"
      ⟨"DDDD", "h4", [⟨"h4", "u4", true, [], freshMarks⟩], true, "regular"⟩
      (handleContinueBlackout (⟨[("DDDD", ⟨"DDDD", "h4",
        [⟨"h4", "u4", true, [], freshMarks⟩], true, "regular"⟩)], ["EEEE"]⟩ :
        ServerState) "h4" "DDDD").2 :=
  continue_blackout_frame _ "h4" "DDDD"
    ⟨"DDDD", "h4", [⟨"h4", "u4", true, [], freshMarks⟩], true, "regular"⟩ rfl rfl

-- ---------------------------------------------------------------------
-- C10: join-room is case-insensitive on room codes
-- ---------------------------------------------------------------------

/-- C10: join-room uppercases the supplied room code before the
registry lookup, so any spelling whose uppercasing is a live room's
(uppercase) code behaves exactly like the uppercase spelling; when the
room has not started, the join succeeds and appends the new player. -/
theorem join_room_case_insensitive (st : ServerState) (sid r u c : String)
    (room : Room) (hru : upperString r = c) (hcu : upperString c = c)
    (hc : mapLookup c st.rooms = some room) (hgs : room.gameStarted = false) :
    handleJoinRoom st sid r u = handleJoinRoom st sid c u ∧
    mapLookup c (handleJoinRoom st sid r u).1.rooms =
      some { room with players := room.players ++ [createPlayer sid u false] } ∧
    (handleJoinRoom st sid r u).2 =
      [OutEvent.roomJoined sid c, OutEvent.playerJoined c sid] := by
  have heq : handleJoinRoom st sid r u = handleJoinRoom st sid c u := by
    unfold handleJoinRoom
    rw [hru, hcu]
  have hred : handleJoinRoom st sid c u =
      ({ rooms := mapSet c { room with players := room.players ++ [createPlayer sid u false] } st.rooms,
         roomTimers := st.roomTimers.erase c },
       [OutEvent.roomJoined sid c, OutEvent.playerJoined c sid]) := by
    simp [handleJoinRoom, hcu, hc, hgs]
  refine ⟨heq, ?_, ?_⟩
  · rw [heq, hred]
    exact mapLookup_mapSet_self _ _ _
  · rw [heq, hred]

/-- Witness for C10: the mixed-case spelling "abCd" of live room "ABCD"
joins that room. -/
theorem join_room_case_insensitive_witness :
    handleJoinRoom (⟨[("ABCD", ⟨"ABCD", "h3", [⟨"h3", "u3", true, [], freshMarks⟩],
        false, "regular"⟩)], []⟩ : ServerState) "s9" "abCd" "u9" =
      handleJoinRoom (⟨[("ABCD", ⟨"ABCD", "h3", [⟨"h3", "u3", true, [], freshMarks⟩],
        false, "regular"⟩)], []⟩ : ServerState) "s9" "ABCD" "u9" ∧
    mapLookup "ABCD" (handleJoinRoom (⟨[("ABCD", ⟨"ABCD", "h3",
        [⟨"h3", "u3", true, [], freshMarks⟩], false, "regular"⟩)], []⟩ :
        ServerState) "s9" "abCd" "u9").1.rooms =
      some ⟨"ABCD", "h3", [⟨"h3", "u3", true, [], freshMarks⟩, createPlayer "s9" "u9" false],
        false, "regular"⟩ ∧
    (handleJoinRoom (⟨[("ABCD", ⟨"ABCD", "h3", [⟨"h3", "u3", true, [], freshMarks⟩],
        false, "regular"⟩)], []⟩ : ServerState) "s9" "abCd" "u9").2 =
      [OutEvent.roomJoined "s9" "ABCD", OutEvent.playerJoined "ABCD" "s9"] :=
  join_room_case_insensitive _ "s9" "abCd" "u9" "ABCD"
    ⟨"ABCD", "h3", [⟨"h3", "u3", true, [], freshMarks⟩], false, "regular"⟩
    (by decide) (by decide) rfl rfl

-- ---------------------------------------------------------------------
-- C9: idle-expiry of empty rooms
-- ---------------------------------------------------------------------

theorem lookup_split (k : String) (m : List (String × Room)) (r : Room)
    (h : mapLookup k m = some r) :
    ∃ l₁ l₂, m = l₁ ++ (k, r) :: l₂ ∧ ∀ kv ∈ l₁, kv.1 ≠ k := by
  induction m with
  | nil => simp [mapLookup] at h
  | cons kv rest ih =>
    unfold mapLookup at h
    by_cases he : kv.1 = k
    · rw [if_pos he] at h
      obtain ⟨k1, v1⟩ := kv
      simp only at he h
      injection h with h2
      subst he
      subst h2
      exact ⟨[], rest, rfl, by intro kv hkv; simp at hkv⟩
    · rw [if_neg he] at h
      obtain ⟨l₁, l₂, hsplit, hl₁⟩ := ih h
      refine ⟨kv :: l₁, l₂, by rw [hsplit]; rfl, ?_⟩
      intro kv2 hkv2
      rcases List.mem_cons.mp hkv2 with rfl | h2
      · exact he
      · exact hl₁ kv2 h2

theorem keys_nodup_right (k : String) (r : Room) (l₁ l₂ : List (String × Room))
    (hnd : ((l₁ ++ (k, r) :: l₂).map Prod.fst).Nodup) :
    ∀ kv ∈ l₂, kv.1 ≠ k := by
  intro kv hkv heq
  rw [List.map_append, List.map_cons] at hnd
  have h2 := (List.nodup_append.mp hnd).2.1
  rw [List.nodup_cons] at h2
  have hm : kv.1 ∈ l₂.map Prod.fst := List.mem_map_of_mem Prod.fst hkv
  rw [heq] at hm
  exact h2.1 hm

theorem discTimers_mem_ne (sid c : String) (l : List (String × Room))
    (h : ∀ kv ∈ l, kv.1 ≠ c) (ts : List String) :
    c ∈ l.foldl (discTimerStep sid) ts ↔ c ∈ ts := by
  induction l generalizing ts with
  | nil => rfl
  | cons kv rest ih =>
    rw [List.foldl_cons]
    have hne : c ≠ kv.1 := fun he => h kv (List.mem_cons_self _ _) he.symm
    have hstep : c ∈ discTimerStep sid ts kv ↔ c ∈ ts := by
      unfold discTimerStep
      cases kv.2.players.find? (fun p => p.id == sid) with
      | none => exact Iff.rfl
      | some player =>
        by_cases hie : (removeFirst (fun p => p.id == sid) kv.2.players).isEmpty = true
        · rw [if_pos hie]
          rw [List.mem_append]
          simp only [List.mem_singleton]
          constructor
          · rintro (h1 | h1)
            · exact (List.mem_erase_of_ne hne).mp h1
            · exact absurd h1 hne
          · intro h1
            exact Or.inl ((List.mem_erase_of_ne hne).mpr h1)
        · rw [if_neg hie]
          exact List.mem_erase_of_ne hne
    rw [ih (fun kv2 h2 => h kv2 (List.mem_cons_of_mem _ h2)), hstep]

theorem discTimers_nodup (sid : String) (l : List (String × Room))
    (ts : List String) (h : ts.Nodup) :
    (l.foldl (discTimerStep sid) ts).Nodup := by
  induction l generalizing ts with
  | nil => exact h
  | cons kv rest ih =>
    rw [List.foldl_cons]
    apply ih
    unfold discTimerStep
    cases kv.2.players.find? (fun p => p.id == sid) with
    | none => exact h
    | some player =>
      by_cases hie : (removeFirst (fun p => p.id == sid) kv.2.players).isEmpty = true
      · rw [if_pos hie]
        apply List.Nodup.append (h.erase _) (List.nodup_singleton _)
        intro a ha hb
        rcases List.mem_singleton.mp hb with rfl
        exact ((List.Nodup.mem_erase_iff h).mp ha).1 rfl
      · rw [if_neg hie]
        exact h.erase _

theorem mapLookup_mapDelete_self (k : String) (m : List (String × Room)) :
    mapLookup k (mapDelete k m) = none := by
  induction m with
  | nil => rfl
  | cons kv rest ih =>
    by_cases he : kv.1 = k
    · have : mapDelete k (kv :: rest) = mapDelete k rest := by
        simp [mapDelete, List.filter, he]
      rw [this]
      exact ih
    · have : mapDelete k (kv :: rest) = kv :: mapDelete k rest := by
        simp [mapDelete, List.filter, he]
      rw [this]
      unfold mapLookup
      rw [if_neg he]
      exact ih

/-- C9: for a room whose only player disconnects — (a) the room stays in
the registry (now empty) and a cleanup timer for its code becomes
pending; (b) a timer firing against any room that still has players
changes nothing; (c) the pending timer firing while the room is still
empty deletes it; (d) a join-room for the code before the timer fires
cancels the pending deletion — the timer set no longer holds the code,
the room is still live, and a subsequent firing is a no-op. -/
theorem room_expiry
    (st st2 : ServerState) (c sid sid2 u : String) (room room2 : Room) (p : Player)
    (hkeys : (st.rooms.map Prod.fst).Nodup)
    (htimers : st.roomTimers.Nodup)
    (hcu : upperString c = c)
    (hc : mapLookup c st.rooms = some room)
    (hp : room.players = [p]) (hpid : p.id = sid)
    (hc2 : mapLookup c st2.rooms = some room2) (hne2 : room2.players ≠ []) :
    mapLookup c (handleDisconnect st sid).1.rooms = some { room with players := [] } ∧
    c ∈ (handleDisconnect st sid).1.roomTimers ∧
    fireTimer st2 c = st2 ∧
    mapLookup c (fireTimer (handleDisconnect st sid).1 c).rooms = none ∧
    c ∉ (handleJoinRoom (handleDisconnect st sid).1 sid2 c u).1.roomTimers ∧
    mapLookup c (handleJoinRoom (handleDisconnect st sid).1 sid2 c u).1.rooms ≠ none ∧
    fireTimer (handleJoinRoom (handleDisconnect st sid).1 sid2 c u).1 c =
      (handleJoinRoom (handleDisconnect st sid).1 sid2 c u).1 := by
  have hpred : (p.id == sid) = true := by
    rw [hpid]
    exact beq_self_eq_true sid
  have hf : room.players.find? (fun x => x.id == sid) = some p := by
    rw [hp]
    exact List.find?_cons_of_pos _ hpred
  have hrm : removeFirst (fun x => x.id == sid) room.players = [] := by
    rw [hp]
    simp [removeFirst, hpred]
  have hafter : roomAfterDisconnect sid room = { room with players := [] } := by
    simp only [roomAfterDisconnect, hf, hrm]
  have ha1 : mapLookup c (handleDisconnect st sid).1.rooms =
      some { room with players := [] } := by
    have hmap : (handleDisconnect st sid).1.rooms =
        st.rooms.map fun kv => (kv.1, roomAfterDisconnect sid kv.2) := rfl
    rw [hmap, mapLookup_map_value (roomAfterDisconnect sid) c st.rooms, hc]
    show some (roomAfterDisconnect sid room) = _
    rw [hafter]
  obtain ⟨l₁, l₂, hsplit, hl₁⟩ := lookup_split c st.rooms room hc
  have hl₂ : ∀ kv ∈ l₂, kv.1 ≠ c := keys_nodup_right c room l₁ l₂ (hsplit ▸ hkeys)
  have htim : (handleDisconnect st sid).1.roomTimers =
      l₂.foldl (discTimerStep sid)
        (discTimerStep sid (l₁.foldl (discTimerStep sid) st.roomTimers) (c, room)) := by
    show st.rooms.foldl (discTimerStep sid) st.roomTimers = _
    rw [hsplit, List.foldl_append, List.foldl_cons]
  have hstepc : discTimerStep sid (l₁.foldl (discTimerStep sid) st.roomTimers) (c, room) =
      (l₁.foldl (discTimerStep sid) st.roomTimers).erase c ++ [c] := by
    simp only [discTimerStep, hf, hrm, List.isEmpty_nil, if_true]
  have ha2 : c ∈ (handleDisconnect st sid).1.roomTimers := by
    rw [htim, hstepc]
    apply (discTimers_mem_ne sid c l₂ hl₂ _).mpr
    exact List.mem_append.mpr (Or.inr (List.mem_singleton.mpr rfl))
  have hb : fireTimer st2 c = st2 := by
    have hie : room2.players.isEmpty = false := by
      cases hq2 : room2.players with
      | nil => exact absurd hq2 hne2
      | cons a l => rfl
    by_cases hmem : c ∈ st2.roomTimers
    · simp [fireTimer, hmem, hc2, hie]
    · simp [fireTimer, hmem]
  have htimnodup : (handleDisconnect st sid).1.roomTimers.Nodup := by
    show (st.rooms.foldl (discTimerStep sid) st.roomTimers).Nodup
    exact discTimers_nodup sid st.rooms st.roomTimers htimers
  have hcdel : mapLookup c (fireTimer (handleDisconnect st sid).1 c).rooms = none := by
    have hie : ({ room with players := ([] : List Player) }).players.isEmpty = true := rfl
    simp only [fireTimer, ha2, if_true, ha1, hie]
    exact mapLookup_mapDelete_self c _
  have htimersj : (handleJoinRoom (handleDisconnect st sid).1 sid2 c u).1.roomTimers =
      (handleDisconnect st sid).1.roomTimers.erase c := by
    by_cases hgs : room.gameStarted = true
    · simp [handleJoinRoom, hcu, ha1, hgs]
    · simp [handleJoinRoom, hcu, ha1, hgs]
  have hd1 : c ∉ (handleJoinRoom (handleDisconnect st sid).1 sid2 c u).1.roomTimers := by
    rw [htimersj]
    intro hm
    exact ((List.Nodup.mem_erase_iff htimnodup).mp hm).1 rfl
  have hd2 : mapLookup c (handleJoinRoom (handleDisconnect st sid).1 sid2 c u).1.rooms ≠ none := by
    by_cases hgs : room.gameStarted = true
    · have : (handleJoinRoom (handleDisconnect st sid).1 sid2 c u).1.rooms =
          (handleDisconnect st sid).1.rooms := by
        simp [handleJoinRoom, hcu, ha1, hgs]
      rw [this, ha1]
      simp
    · have : mapLookup c (handleJoinRoom (handleDisconnect st sid).1 sid2 c u).1.rooms =
          some { { room with players := ([] : List Player) } with
            players := ({ room with players := ([] : List Player) }).players ++
              [createPlayer sid2 u false] } := by
        have hred : handleJoinRoom (handleDisconnect st sid).1 sid2 c u =
            ({ rooms := mapSet c { { room with players := ([] : List Player) } with
                  players := ({ room with players := ([] : List Player) }).players ++
                    [createPlayer sid2 u false] } (handleDisconnect st sid).1.rooms,
               roomTimers := (handleDisconnect st sid).1.roomTimers.erase c },
             [OutEvent.roomJoined sid2 c, OutEvent.playerJoined c sid2]) := by
          simp [handleJoinRoom, hcu, ha1, hgs]
        rw [hred]
        exact mapLookup_mapSet_self _ _ _
      rw [this]
      simp
  have hd3 : fireTimer (handleJoinRoom (handleDisconnect st sid).1 sid2 c u).1 c =
      (handleJoinRoom (handleDisconnect st sid).1 sid2 c u).1 := by
    simp [fireTimer, hd1]
  exact ⟨ha1, ha2, hb, hcdel, hd1, hd2, hd3⟩

/-- Witness for C9 at a one-room, one-player state. -/
theorem room_expiry_witness :
    mapLookup "FFFF" (handleDisconnect
        (⟨[("FFFF", ⟨"FFFF", "pz", [⟨"pz", "uz", false, [], freshMarks⟩],
          false, "regular"⟩)], []⟩ : ServerState) "pz").1.rooms =
      some { (⟨"FFFF", "pz", [⟨"pz", "uz", false, [], freshMarks⟩], false,
        "regular"⟩ : Room) with players := [] } ∧
    "FFFF" ∈ (handleDisconnect
        (⟨[("FFFF", ⟨"FFFF", "pz", [⟨"pz", "uz", false, [], freshMarks⟩],
          false, "regular"⟩)], []⟩ : ServerState) "pz").1.roomTimers ∧
    fireTimer (⟨[("FFFF", ⟨"FFFF", "pz", [⟨"pz", "uz", false, [], freshMarks⟩],
        false, "regular"⟩)], []⟩ : ServerState) "FFFF" =
      (⟨[("FFFF", ⟨"FFFF", "pz", [⟨"pz", "uz", false, [], freshMarks⟩],
        false, "regular"⟩)], []⟩ : ServerState) ∧
    mapLookup "FFFF" (fireTimer (handleDisconnect
        (⟨[("FFFF", ⟨"FFFF", "pz", [⟨"pz", "uz", false, [], freshMarks⟩],
          false, "regular"⟩)], []⟩ : ServerState) "pz").1 "FFFF").rooms = none ∧
    "FFFF" ∉ (handleJoinRoom (handleDisconnect
        (⟨[("FFFF", ⟨"FFFF", "pz", [⟨"pz", "uz", false, [], freshMarks⟩],
          false, "regular"⟩)], []⟩ : ServerState) "pz").1 "s8" "FFFF" "u8").1.roomTimers ∧
    mapLookup "FFFF" (handleJoinRoom (handleDisconnect
        (⟨[("FFFF", ⟨"FFFF", "pz", [⟨"pz", "uz", false, [], freshMarks⟩],
          false, "regular"⟩)], []⟩ : ServerState) "pz").1 "s8" "FFFF" "u8").1.rooms ≠ none ∧
    fireTimer (handleJoinRoom (handleDisconnect
        (⟨[("FFFF", ⟨"FFFF", "pz", [⟨"pz", "uz", false, [], freshMarks⟩],
          false, "regular"⟩)], []⟩ : ServerState) "pz").1 "s8" "FFFF" "u8").1 "FFFF" =
      (handleJoinRoom (handleDisconnect
        (⟨[("FFFF", ⟨"FFFF", "pz", [⟨"pz", "uz", false, [], freshMarks⟩],
          false, "regular"⟩)], []⟩ : ServerState) "pz").1 "s8" "FFFF" "u8").1 :=
  room_expiry
    (⟨[("FFFF", ⟨"FFFF", "pz", [⟨"pz", "uz", false, [], freshMarks⟩],
      false, "regular"⟩)], []⟩ : ServerState)
    (⟨[("FFFF", ⟨"FFFF", "pz", [⟨"pz", "uz", false, [], freshMarks⟩],
      false, "regular"⟩)], []⟩ : ServerState)
    "FFFF" "pz" "s8" "u8"
    ⟨"FFFF", "pz", [⟨"pz", "uz", false, [], freshMarks⟩], false, "regular"⟩
    ⟨"FFFF", "pz", [⟨"pz", "uz", false, [], freshMarks⟩], false, "regular"⟩
    ⟨"pz", "uz", false, [], freshMarks⟩
    (by decide) (by decide) (by decide) rfl rfl rfl rfl (by decide)
